import Mathlib

/-!
Shallow embedding of `TranscriptCache` from `src/app/utils/transcript_cache.py`.

The cache is an ordered mapping (Python `OrderedDict`) from keys
`(video_id, language_tuple)` to entries `(transcript, timestamp)`.
We model the ordered dict as an association list whose head is the
oldest (least-recently-used) entry and whose last element is the
most-recently-used one, matching `popitem(last=False)` removing the
head and `move_to_end` moving an entry to the tail.

Timestamps are modelled as integers (`time.time()` returns a float the
cache only compares and subtracts; integer instants preserve every
comparison the code performs).  The transcript payload is opaque to the
cache, so the state is polymorphic in the payload type `α`.

Python's `set` can raise `KeyError`: with `max_size == 0` (or the cache
already emptied) the eviction loop `while len(self._cache) >= self.max_size`
calls `popitem(last=False)` on an empty dict.  We model this by letting
`TranscriptCache.set` (and the eviction loop) return an `Option`, `none`
meaning the uncaught `KeyError`.
-/

namespace TranscriptCache

/-- A cache key: `(video_id, language_tuple)` as built by `_make_key`. -/
abbrev Key := String × List String

/-- Configuration fixed at construction, read from `settings` in `__init__`:
`CACHE_ENABLED`, `CACHE_TTL_SECONDS`, `CACHE_MAX_SIZE`. -/
structure Config where
  enabled : Bool
  ttlSeconds : Int
  maxSize : Nat
deriving Repr, DecidableEq

/-- Cache state: the configuration plus the ordered store.  The store list
is ordered oldest-used first (head = least recently used, tail = most
recently used), mirroring the iteration order of the `OrderedDict`. -/
structure State (α : Type) where
  cfg : Config
  store : List (Key × α × Int)
deriving Repr

/-- The freshly constructed cache: empty `OrderedDict`. -/
def State.empty (α : Type) (cfg : Config) : State α := ⟨cfg, []⟩

/-- Python's string comparison, used by `sorted(languages)`: lexicographic
on the sequences of Unicode code points.  `lexLe l1 l2` is `l1 <= l2`. -/
def lexLe : List Char → List Char → Bool
  | [], _ => true
  | _ :: _, [] => false
  | a :: as, b :: bs => if a = b then lexLe as bs else decide (a < b)

/-- The `<=` order `sorted` arranges Python strings by, as a relation. -/
def strLe (a b : String) : Prop := lexLe a.data b.data = true

instance strLe.instDecidableRel : DecidableRel strLe :=
  fun a b => inferInstanceAs (Decidable (lexLe a.data b.data = true))

/-- `_make_key`: `tuple(sorted(languages)) if languages else ("en",)`.
`languages` is falsy in Python when it is `None` or the empty list. -/
def makeKey (videoId : String) (languages : Option (List String)) : Key :=
  match languages with
  | none => (videoId, ["en"])
  | some [] => (videoId, ["en"])
  | some ls => (videoId, ls.insertionSort strLe)

/-- `_is_expired`: `time.time() - timestamp > self.ttl_seconds`, with the
current instant passed explicitly. -/
def isExpired (cfg : Config) (now timestamp : Int) : Bool :=
  now - timestamp > cfg.ttlSeconds

/-- Dictionary lookup `self._cache[key]` / `key in self._cache` on the
association list. -/
def lookupKey (key : Key) : List (Key × α × Int) → Option (α × Int)
  | [] => none
  | e :: rest => if e.1 = key then some e.2 else lookupKey key rest

/-- Dictionary deletion `del self._cache[key]`: removes the entry with
that key, preserving the order of the remaining entries. -/
def eraseKey (key : Key) (l : List (Key × α × Int)) : List (Key × α × Int) :=
  l.filter (fun e => e.1 ≠ key)

/-- `size`: `len(self._cache)`. -/
def State.size (c : State α) : Nat := c.store.length

/-- The eviction loop of `set`:
`while len(self._cache) >= self.max_size: self._cache.popitem(last=False)`.
`popitem` on an empty dict raises `KeyError`, modelled as `none`; in
particular with `maxSize = 0` the loop always ends in the exception. -/
def evict (maxSize : Nat) : List (Key × α × Int) → Option (List (Key × α × Int))
  | [] => if maxSize = 0 then none else some []
  | e :: rest =>
    if rest.length + 1 ≥ maxSize then evict maxSize rest
    else some (e :: rest)

/-- `get(video_id, languages)`: returns the cached payload (or `none`)
together with the state after the call.  A hit moves the entry to the
tail (`move_to_end`); an expired entry is deleted and reported absent. -/
def get (c : State α) (now : Int) (videoId : String)
    (languages : Option (List String)) : Option α × State α :=
  if !c.cfg.enabled then (none, c)
  else
    match lookupKey (makeKey videoId languages) c.store with
    | none => (none, c)
    | some (transcript, timestamp) =>
      if isExpired c.cfg now timestamp then
        (none, { c with store := eraseKey (makeKey videoId languages) c.store })
      else
        (some transcript,
         { c with store := eraseKey (makeKey videoId languages) c.store
             ++ [(makeKey videoId languages, transcript, timestamp)] })

/-- `set(video_id, transcript, languages)`: deletes an existing entry for
the key, runs the eviction loop, then appends the new entry at the tail.
`none` is the uncaught `KeyError` from the eviction loop. -/
def set (c : State α) (now : Int) (videoId : String) (transcript : α)
    (languages : Option (List String)) : Option (State α) :=
  if !c.cfg.enabled then some c
  else
    match evict c.cfg.maxSize
        (if (lookupKey (makeKey videoId languages) c.store).isSome then
          eraseKey (makeKey videoId languages) c.store
        else c.store) with
    | none => none
    | some store2 => some { c with store := store2 ++ [(makeKey videoId languages, transcript, now)] }

/-- `clear`: `self._cache.clear()`, unconditional. -/
def clear (c : State α) : State α := { c with store := [] }

/-- `cleanup_expired`: if disabled returns 0 unchanged; otherwise removes
every expired entry and returns how many were removed. -/
def cleanupExpired (c : State α) (now : Int) : Nat × State α :=
  if !c.cfg.enabled then (0, c)
  else
    let expired := c.store.filter (fun e => isExpired c.cfg now e.2.2)
    (expired.length, { c with store := c.store.filter (fun e => !isExpired c.cfg now e.2.2) })

/-- One operation of the cache's mutating interface, with the instant at
which it is invoked. -/
inductive Op (α : Type) where
  | get (now : Int) (videoId : String) (languages : Option (List String))
  | set (now : Int) (videoId : String) (transcript : α) (languages : Option (List String))
  | clear
  | cleanup (now : Int)

/-- Apply one operation to a state; `none` is an uncaught exception. -/
def applyOp (c : State α) : Op α → Option (State α)
  | .get now v ls => some (get c now v ls).2
  | .set now v p ls => set c now v p ls
  | .clear => some (clear c)
  | .cleanup now => some (cleanupExpired c now).2

/-- Run a sequence of operations from a given state. -/
def runFrom (c : State α) : List (Op α) → Option (State α)
  | [] => some c
  | op :: rest =>
    match applyOp c op with
    | none => none
    | some c2 => runFrom c2 rest

/-- Run a sequence of operations from the empty cache under `cfg`. -/
def run (cfg : Config) (ops : List (Op α)) : Option (State α) :=
  runFrom (State.empty α cfg) ops

end TranscriptCache

namespace TranscriptCache

/-! ### Helper lemmas about the store operations -/

theorem lookupKey_eraseKey (key : Key) (l : List (Key × α × Int)) :
    lookupKey key (eraseKey key l) = none := by
  induction l with
  | nil => rfl
  | cons e rest ih =>
    by_cases h : e.1 = key
    · simpa [eraseKey, List.filter, h] using ih
    · simpa [eraseKey, List.filter, h, lookupKey] using ih

theorem lookupKey_append_of_none {key : Key} {l1 : List (Key × α × Int)}
    (l2 : List (Key × α × Int)) (h : lookupKey key l1 = none) :
    lookupKey key (l1 ++ l2) = lookupKey key l2 := by
  induction l1 with
  | nil => rfl
  | cons e rest ih =>
    by_cases he : e.1 = key
    · simp [lookupKey, he] at h
    · simp only [lookupKey, List.cons_append] at h ⊢
      rw [if_neg he] at h
      rw [if_neg he]
      exact ih h

theorem length_eraseKey_le (key : Key) (l : List (Key × α × Int)) :
    (eraseKey key l).length ≤ l.length :=
  List.length_filter_le _ l

theorem length_eraseKey_lt {key : Key} {l : List (Key × α × Int)} {v : α × Int}
    (h : lookupKey key l = some v) : (eraseKey key l).length < l.length := by
  induction l with
  | nil => simp [lookupKey] at h
  | cons e rest ih =>
    by_cases he : e.1 = key
    · have : eraseKey key (e :: rest) = eraseKey key rest := by
        simp [eraseKey, List.filter_cons, he]
      rw [this]
      exact Nat.lt_succ_of_le (List.length_filter_le _ rest)
    · rw [lookupKey, if_neg he] at h
      have : eraseKey key (e :: rest) = e :: eraseKey key rest := by
        simp [eraseKey, List.filter_cons, he]
      rw [this]
      simpa using ih h

theorem evict_length {maxSize : Nat} {l l2 : List (Key × α × Int)}
    (h : evict maxSize l = some l2) : l2.length < maxSize := by
  induction l with
  | nil =>
    by_cases h0 : maxSize = 0
    · simp [evict, h0] at h
    · simp only [evict, h0, ite_false, if_neg, Option.some.injEq] at h
      subst h
      exact Nat.pos_of_ne_zero h0
  | cons e rest ih =>
    by_cases hc : rest.length + 1 ≥ maxSize
    · simp only [evict, hc, ite_true, if_pos] at h
      exact ih h
    · simp only [evict, hc, ite_false, if_neg, Option.some.injEq] at h
      subst h
      simpa using Nat.lt_of_not_le hc

theorem evict_zero (l : List (Key × α × Int)) : evict (α := α) 0 l = none := by
  induction l with
  | nil => rfl
  | cons e rest ih => simpa [evict] using ih

end TranscriptCache

namespace TranscriptCache

/-! ### Key normalization lemmas -/

theorem lexLe_total (l1 : List Char) : ∀ l2, lexLe l1 l2 = true ∨ lexLe l2 l1 = true := by
  induction l1 with
  | nil => intro l2; exact Or.inl rfl
  | cons a as ih =>
    intro l2
    cases l2 with
    | nil => exact Or.inr rfl
    | cons b bs =>
      by_cases hab : a = b
      · subst hab
        simp only [lexLe, if_pos rfl]
        exact ih bs
      · have hba : ¬b = a := fun h => hab h.symm
        simp only [lexLe, if_neg hab, if_neg hba, decide_eq_true_eq]
        rcases lt_trichotomy a b with h | h | h
        · exact Or.inl h
        · exact absurd h hab
        · exact Or.inr h

theorem lexLe_trans (l1 : List Char) : ∀ l2 l3, lexLe l1 l2 = true →
    lexLe l2 l3 = true → lexLe l1 l3 = true := by
  induction l1 with
  | nil => intro l2 l3 _ _; rfl
  | cons a as ih =>
    intro l2 l3 h1 h2
    cases l2 with
    | nil => simp [lexLe] at h1
    | cons b bs =>
      cases l3 with
      | nil => simp [lexLe] at h2
      | cons c cs =>
        by_cases hab : a = b <;> by_cases hbc : b = c
        · subst hab
          subst hbc
          simp only [lexLe, if_pos rfl] at h1 h2 ⊢
          exact ih bs cs h1 h2
        · subst hab
          simp only [lexLe, if_neg hbc] at h2 ⊢
          exact h2
        · subst hbc
          simp only [lexLe, if_neg hab] at h1 ⊢
          exact h1
        · simp only [lexLe, if_neg hab, decide_eq_true_eq] at h1
          simp only [lexLe, if_neg hbc, decide_eq_true_eq] at h2
          have hac : a < c := lt_trans h1 h2
          simp only [lexLe, if_neg (ne_of_lt hac), decide_eq_true_eq]
          exact hac

theorem lexLe_antisymm (l1 : List Char) : ∀ l2, lexLe l1 l2 = true →
    lexLe l2 l1 = true → l1 = l2 := by
  induction l1 with
  | nil =>
    intro l2 _ h2
    cases l2 with
    | nil => rfl
    | cons b bs => simp [lexLe] at h2
  | cons a as ih =>
    intro l2 h1 h2
    cases l2 with
    | nil => simp [lexLe] at h1
    | cons b bs =>
      by_cases hab : a = b
      · subst hab
        simp only [lexLe, if_pos rfl] at h1 h2
        rw [ih bs h1 h2]
      · have hba : ¬b = a := fun h => hab h.symm
        simp only [lexLe, if_neg hab, decide_eq_true_eq] at h1
        simp only [lexLe, if_neg hba, decide_eq_true_eq] at h2
        exact absurd h1 (lt_asymm h2)

instance : IsTotal String strLe := ⟨fun a b => lexLe_total a.data b.data⟩

instance : IsTrans String strLe := ⟨fun a b c => lexLe_trans a.data b.data c.data⟩

instance : IsAntisymm String strLe :=
  ⟨fun a b h1 h2 => by
    cases a with
    | mk da =>
      cases b with
      | mk db => exact congrArg String.mk (lexLe_antisymm da db h1 h2)⟩

theorem insertionSort_eq_of_perm {l1 l2 : List String} (h : l1.Perm l2) :
    l1.insertionSort strLe = l2.insertionSort strLe :=
  List.eq_of_perm_of_sorted
    (((List.perm_insertionSort _ l1).trans h).trans (List.perm_insertionSort _ l2).symm)
    (List.sorted_insertionSort _ l1) (List.sorted_insertionSort _ l2)

theorem makeKey_perm (vid : String) {l1 l2 : List String} (h : l1.Perm l2) :
    makeKey vid (some l1) = makeKey vid (some l2) := by
  cases l1 with
  | nil =>
    have h2 : l2 = [] := h.symm.eq_nil
    subst h2
    rfl
  | cons a t =>
    cases l2 with
    | nil => exact absurd h.eq_nil (by simp)
    | cons b t2 =>
      simp only [makeKey, Prod.mk.injEq, true_and]
      exact insertionSort_eq_of_perm h

/-! ### Configuration is never changed by any operation -/

theorem get_cfg (c : State α) (now : Int) (v : String) (ls : Option (List String)) :
    (get c now v ls).2.cfg = c.cfg := by
  simp only [get]
  split
  · rfl
  · split
    · rfl
    · split <;> rfl

theorem set_cfg {c c2 : State α} {now : Int} {v : String} {p : α}
    {ls : Option (List String)} (h : set c now v p ls = some c2) : c2.cfg = c.cfg := by
  simp only [set] at h
  split at h
  · exact (Option.some.injEq _ _ ▸ h).symm ▸ rfl
  · split at h
    · exact absurd h (by simp)
    · cases h
      rfl

theorem cleanupExpired_cfg (c : State α) (now : Int) :
    (cleanupExpired c now).2.cfg = c.cfg := by
  simp only [cleanupExpired]
  split <;> rfl

theorem applyOp_cfg {c c2 : State α} {op : Op α} (h : applyOp c op = some c2) :
    c2.cfg = c.cfg := by
  cases op with
  | get now v ls =>
    cases h
    exact get_cfg c now v ls
  | set now v p ls => exact set_cfg h
  | clear =>
    cases h
    rfl
  | cleanup now =>
    cases h
    exact cleanupExpired_cfg c now

/-! ### Size bounds for each operation -/

theorem get_size_le (c : State α) (now : Int) (v : String) (ls : Option (List String)) :
    (get c now v ls).2.size ≤ c.size := by
  simp only [get]
  split
  · exact le_refl _
  · split
    · exact le_refl _
    · next p ts heq =>
      split
      · exact length_eraseKey_le _ _
      · simp only [State.size, List.length_append, List.length_cons, List.length_nil]
        have := length_eraseKey_lt heq
        omega

theorem set_size {c c2 : State α} {now : Int} {v : String} {p : α}
    {ls : Option (List String)} (hle : c.size ≤ c.cfg.maxSize)
    (h : set c now v p ls = some c2) : c2.size ≤ c.cfg.maxSize := by
  simp only [set] at h
  split at h
  · cases h
    exact hle
  · split at h
    · exact absurd h (by simp)
    · next store2 heq =>
      cases h
      simp only [State.size, List.length_append, List.length_cons, List.length_nil]
      have := evict_length heq
      omega

theorem cleanupExpired_size_le (c : State α) (now : Int) :
    (cleanupExpired c now).2.size ≤ c.size := by
  simp only [cleanupExpired]
  split
  · exact le_refl _
  · exact List.length_filter_le _ _

theorem applyOp_size {c c2 : State α} {op : Op α} (hle : c.size ≤ c.cfg.maxSize)
    (h : applyOp c op = some c2) : c2.size ≤ c2.cfg.maxSize := by
  rw [applyOp_cfg h]
  cases op with
  | get now v ls =>
    cases h
    exact le_trans (get_size_le c now v ls) hle
  | set now v p ls => exact set_size hle h
  | clear =>
    cases h
    exact Nat.zero_le _
  | cleanup now =>
    cases h
    exact le_trans (cleanupExpired_size_le c now) hle

theorem runFrom_size {ops : List (Op α)} : ∀ {c c2 : State α},
    c.size ≤ c.cfg.maxSize → runFrom c ops = some c2 → c2.size ≤ c2.cfg.maxSize := by
  induction ops with
  | nil =>
    intro c c2 hle h
    cases h
    exact hle
  | cons op rest ih =>
    intro c c2 hle h
    simp only [runFrom] at h
    split at h
    · exact absurd h (by simp)
    · next cmid heq => exact ih (applyOp_size hle heq) h

theorem runFrom_cfg {ops : List (Op α)} : ∀ {c c2 : State α},
    runFrom c ops = some c2 → c2.cfg = c.cfg := by
  induction ops with
  | nil =>
    intro c c2 h
    cases h
    rfl
  | cons op rest ih =>
    intro c c2 h
    simp only [runFrom] at h
    split at h
    · exact absurd h (by simp)
    · next cmid heq => exact (ih h).trans (applyOp_cfg heq)

end TranscriptCache

namespace TranscriptCache

/-! ### Claim theorems -/

/-- C1: the spec says that with `maxSize = 0` and the cache enabled every
`set` completes normally and leaves the store empty.  On the code this is
false: the eviction loop `while len(self._cache) >= self.max_size` never
terminates normally when `max_size = 0` — it empties the dict and then
`popitem(last=False)` raises `KeyError`.  This theorem evaluates the
embedded `set` at such a configuration: it returns `none` (the uncaught
exception), for every state, key and payload. -/
theorem C1_set_raises_when_maxSize_is_zero (c : State α) (now : Int) (v : String)
    (p : α) (ls : Option (List String)) (hen : c.cfg.enabled = true)
    (hmax : c.cfg.maxSize = 0) : set c now v p ls = none := by
  simp only [set, hen, Bool.not_true, Bool.false_eq_true, if_false, hmax, evict_zero]

/-- Witness for C1 at the spec's own example: enabled cache, `maxSize = 0`,
`set("abc", P)` on the empty cache raises (`none`). -/
theorem C1_set_raises_when_maxSize_is_zero_witness :
    set (State.empty Nat ⟨true, 3600, 0⟩) 5 "abc" 7 none = none :=
  C1_set_raises_when_maxSize_is_zero (State.empty Nat ⟨true, 3600, 0⟩) 5 "abc" 7 none rfl rfl

/-- C2: for every configuration and every operation sequence run from the
empty cache, any state the run reaches has `size ≤ maxSize`; moreover each
single operation preserves the bound. -/
theorem C2_size_never_exceeds_maxSize :
    (∀ (cfg : Config) (ops : List (Op α)) (c2 : State α),
      run cfg ops = some c2 → c2.size ≤ cfg.maxSize) ∧
    (∀ (c : State α) (op : Op α) (c2 : State α),
      c.size ≤ c.cfg.maxSize → applyOp c op = some c2 → c2.size ≤ c2.cfg.maxSize) := by
  constructor
  · intro cfg ops c2 h
    have h1 : c2.size ≤ c2.cfg.maxSize :=
      runFrom_size (by simp [State.size, State.empty]) h
    have h2 : c2.cfg = cfg := runFrom_cfg h
    rw [h2] at h1
    exact h1
  · intro c op c2 hle h
    exact applyOp_size hle h

/-- Witness for C2: a concrete one-`set` run under `maxSize = 2` reaches a
state of size at most 2. -/
theorem C2_size_never_exceeds_maxSize_witness :
    State.size (⟨⟨true, 3600, 2⟩, [(("A", ["en"]), 10, 0)]⟩ : State Nat) ≤ 2 :=
  C2_size_never_exceeds_maxSize.1 ⟨true, 3600, 2⟩ [Op.set 0 "A" 10 none]
    ⟨⟨true, 3600, 2⟩, [(("A", ["en"]), 10, 0)]⟩ rfl

/-- C3: on an enabled cache, a `get` that finds the key checks
`now - insertedAt > ttlSeconds` strictly: if the age strictly exceeds the
TTL the entry is deleted and the call reports absent, with `size`
reflecting the removal immediately; at age exactly `ttlSeconds` the call
is still a hit. -/
theorem C3_expired_get_removes_and_misses (c : State α) (now : Int) (v : String)
    (ls : Option (List String)) (p : α) (ts : Int)
    (hen : c.cfg.enabled = true)
    (hl : lookupKey (makeKey v ls) c.store = some (p, ts)) :
    (now - ts > c.cfg.ttlSeconds →
      (get c now v ls).1 = none ∧
      (get c now v ls).2.store = eraseKey (makeKey v ls) c.store ∧
      (get c now v ls).2.size < c.size) ∧
    (now - ts = c.cfg.ttlSeconds → (get c now v ls).1 = some p) := by
  constructor
  · intro hexp
    have hb : isExpired c.cfg now ts = true := by
      simp only [isExpired, decide_eq_true_eq]
      exact hexp
    simp only [get, hen, Bool.not_true, Bool.false_eq_true, if_false, hl, hb, if_true]
    refine ⟨trivial, trivial, ?_⟩
    simp only [State.size]
    exact length_eraseKey_lt hl
  · intro heq
    have hb : isExpired c.cfg now ts = false := by
      simp only [isExpired, decide_eq_false_iff_not, not_lt, heq, le_refl]
    simp only [get, hen, Bool.not_true, Bool.false_eq_true, if_false, hl, hb,
      Bool.false_eq_true]

/-- Witness for C3: a singleton cache with `ttlSeconds = 1` and an entry
inserted at instant 0; at instant 2 the entry is expired and `get` misses,
at instant 1 (age exactly the TTL) it still hits. -/
theorem C3_expired_get_removes_and_misses_witness :
    (get (⟨⟨true, 1, 10⟩, [(("abc", ["en"]), 5, 0)]⟩ : State Nat) 2 "abc" none).1 = none ∧
    (get (⟨⟨true, 1, 10⟩, [(("abc", ["en"]), 5, 0)]⟩ : State Nat) 1 "abc" none).1 = some 5 :=
  ⟨((C3_expired_get_removes_and_misses
      (⟨⟨true, 1, 10⟩, [(("abc", ["en"]), 5, 0)]⟩ : State Nat) 2 "abc" none 5 0
      rfl (by decide)).1 (by decide)).1,
    (C3_expired_get_removes_and_misses
      (⟨⟨true, 1, 10⟩, [(("abc", ["en"]), 5, 0)]⟩ : State Nat) 1 "abc" none 5 0
      rfl (by decide)).2 (by decide)⟩

end TranscriptCache

namespace TranscriptCache

/-- C4: every non-expired hit moves the entry to the most-recently-used
(tail) position, and the eviction loop always removes the head — the
least-recently-used entry; consequently, under `maxSize = 2`, after
`set A; set B; get A; set C` the key `B` has been evicted while `A` and
`C` remain (in recency order `A`, then `C`). -/
theorem C4_lru_promotion_and_eviction :
    (∀ (c : State α) (now : Int) (v : String) (ls : Option (List String)) (p : α) (ts : Int),
      c.cfg.enabled = true →
      lookupKey (makeKey v ls) c.store = some (p, ts) →
      isExpired c.cfg now ts = false →
      (get c now v ls).1 = some p ∧
      (get c now v ls).2.store
        = eraseKey (makeKey v ls) c.store ++ [(makeKey v ls, p, ts)]) ∧
    (∀ (maxSize : Nat) (e : Key × α × Int) (rest : List (Key × α × Int)),
      rest.length + 1 ≥ maxSize → evict maxSize (e :: rest) = evict maxSize rest) ∧
    run (α := Nat) ⟨true, 3600, 2⟩
        [Op.set 0 "A" 10 none, Op.set 1 "B" 20 none, Op.get 2 "A" none, Op.set 3 "C" 30 none]
      = some ⟨⟨true, 3600, 2⟩, [(("A", ["en"]), 10, 0), (("C", ["en"]), 30, 3)]⟩ := by
  refine ⟨?_, ?_, rfl⟩
  · intro c now v ls p ts hen hl hfresh
    simp only [get, hen, Bool.not_true, Bool.false_eq_true, if_false, hl, hfresh]
    exact ⟨trivial, trivial⟩
  · intro maxSize e rest hge
    simp only [evict, hge, if_true]

/-- Witness for C4: the promotion conjunct applied to a concrete singleton
cache — the hit returns the stored payload. -/
theorem C4_lru_promotion_and_eviction_witness :
    (get (⟨⟨true, 3600, 2⟩, [(("A", ["en"]), 10, 0)]⟩ : State Nat) 1 "A" none).1 = some 10 ∧
    evict (α := Nat) 2 [(("A", ["en"]), 10, 0), (("B", ["en"]), 20, 1)]
      = evict 2 [(("B", ["en"]), 20, 1)] :=
  ⟨(C4_lru_promotion_and_eviction.1
      (⟨⟨true, 3600, 2⟩, [(("A", ["en"]), 10, 0)]⟩ : State Nat) 1 "A" none 10 0
      rfl (by decide) (by decide)).1,
    C4_lru_promotion_and_eviction.2.1 2 (("A", ["en"]), 10, 0) [(("B", ["en"]), 20, 1)]
      (by decide)⟩

end TranscriptCache

namespace TranscriptCache

theorem get_congr_key {vid : String} {ls1 ls2 : Option (List String)}
    (hk : makeKey vid ls1 = makeKey vid ls2) (c : State α) (now : Int) :
    get c now vid ls1 = get c now vid ls2 := by
  simp only [get, hk]

theorem set_congr_key {vid : String} {ls1 ls2 : Option (List String)}
    (hk : makeKey vid ls1 = makeKey vid ls2) (c : State α) (now : Int) (p : α) :
    set c now vid p ls1 = set c now vid p ls2 := by
  simp only [set, hk]

/-- C5: key normalization is order-independent and defaults to English:
permuted language lists address the same entry through both `get` and
`set`, and an omitted or empty language list behaves exactly like
`["en"]`. -/
theorem C5_key_normalization_perm_and_default :
    (∀ (c : State α) (now : Int) (vid : String) (p : α) (l1 l2 : List String),
      l1.Perm l2 →
      get c now vid (some l1) = get c now vid (some l2) ∧
      set c now vid p (some l1) = set c now vid p (some l2)) ∧
    (∀ (c : State α) (now : Int) (vid : String) (p : α),
      get c now vid none = get c now vid (some []) ∧
      get c now vid none = get c now vid (some ["en"]) ∧
      set c now vid p none = set c now vid p (some []) ∧
      set c now vid p none = set c now vid p (some ["en"])) := by
  constructor
  · intro c now vid p l1 l2 hperm
    exact ⟨get_congr_key (makeKey_perm vid hperm) c now,
      set_congr_key (makeKey_perm vid hperm) c now p⟩
  · intro c now vid p
    exact ⟨get_congr_key rfl c now, get_congr_key rfl c now,
      set_congr_key rfl c now p, set_congr_key rfl c now p⟩

/-- Witness for C5: `["es","en"]` and `["en","es"]` address the same entry
in a concrete cache. -/
theorem C5_key_normalization_perm_and_default_witness :
    get (State.empty Nat ⟨true, 3600, 5⟩) 0 "v" (some ["es", "en"])
      = get (State.empty Nat ⟨true, 3600, 5⟩) 0 "v" (some ["en", "es"]) :=
  (C5_key_normalization_perm_and_default.1 (State.empty Nat ⟨true, 3600, 5⟩) 0 "v" 7
    ["es", "en"] ["en", "es"] (by decide)).1

/-- C6 counterexample: the claim says duplicated languages normalize away
(`["en","en"]` and `["en"]` give the same key); on the code `sorted` keeps
duplicates, so the keys differ. -/
theorem C6_counterexample_duplicates_kept :
    makeKey "abc" (some ["en", "en"]) ≠ makeKey "abc" (some ["en"]) := by
  decide

/-- C6 amended: the languages component is a sorted tuple that preserves
duplicates — a multiset, not a set.  For nonempty language lists, two
lists produce the same cache key exactly when they are permutations of
each other; lists that differ only in duplicated elements are not
permutations, so they address different entries. -/
theorem C6_amended_languages_are_a_multiset (vid : String) (l1 l2 : List String)
    (h1 : l1 ≠ []) (h2 : l2 ≠ []) :
    makeKey vid (some l1) = makeKey vid (some l2) ↔ l1.Perm l2 := by
  cases l1 with
  | nil => exact absurd rfl h1
  | cons a t1 =>
    cases l2 with
    | nil => exact absurd rfl h2
    | cons b t2 =>
      constructor
      · intro he
        simp only [makeKey, Prod.mk.injEq, true_and] at he
        have h3 : List.Perm ((a :: t1).insertionSort strLe) (b :: t2) := by
          rw [he]
          exact List.perm_insertionSort _ _
        exact (List.perm_insertionSort _ _).symm.trans h3
      · intro hperm
        simp only [makeKey, Prod.mk.injEq, true_and]
        exact insertionSort_eq_of_perm hperm

/-- Witness for C6's amended statement at a concrete pair of permuted
lists. -/
theorem C6_amended_languages_are_a_multiset_witness :
    makeKey "v" (some ["b", "a"]) = makeKey "v" (some ["a", "b"]) :=
  (C6_amended_languages_are_a_multiset "v" ["b", "a"] ["a", "b"]
    (by decide) (by decide)).mpr (by decide)

end TranscriptCache

namespace TranscriptCache

theorem applyOp_disabled {c c2 : State α} {op : Op α} (hen : c.cfg.enabled = false)
    (h : applyOp c op = some c2) : c2.store = c.store ∨ c2.store = [] := by
  cases op with
  | get now v ls =>
    cases h
    simp only [get, hen, Bool.not_false, if_true]
    exact Or.inl trivial
  | set now v p ls =>
    simp only [applyOp, set, hen, Bool.not_false, if_true, Option.some.injEq] at h
    cases h
    exact Or.inl rfl
  | clear =>
    cases h
    exact Or.inr rfl
  | cleanup now =>
    cases h
    simp only [cleanupExpired, hen, Bool.not_false, if_true]
    exact Or.inl trivial

theorem runFrom_disabled {ops : List (Op α)} : ∀ {c c2 : State α},
    c.cfg.enabled = false → c.store = [] → runFrom c ops = some c2 → c2.store = [] := by
  induction ops with
  | nil =>
    intro c c2 _ hst h
    cases h
    exact hst
  | cons op rest ih =>
    intro c c2 hen hst h
    simp only [runFrom] at h
    split at h
    · exact absurd h (by simp)
    · next cmid heq =>
      have hcfg : cmid.cfg = c.cfg := applyOp_cfg heq
      have hmid : cmid.store = [] := by
        rcases applyOp_disabled hen heq with h1 | h1
        · rw [h1, hst]
        · exact h1
      exact ih (hcfg ▸ hen) hmid h

/-- C7: with `enabled = false` the cache is a transparent no-op — `get`
returns absent and leaves the state untouched, `set` discards its
argument, and any sequence of operations run from the empty cache keeps
`size = 0`. -/
theorem C7_disabled_cache_is_noop :
    (∀ (c : State α) (now : Int) (v : String) (ls : Option (List String)),
      c.cfg.enabled = false → get c now v ls = (none, c)) ∧
    (∀ (c : State α) (now : Int) (v : String) (p : α) (ls : Option (List String)),
      c.cfg.enabled = false → set c now v p ls = some c) ∧
    (∀ (cfg : Config) (ops : List (Op α)) (c2 : State α),
      cfg.enabled = false → run cfg ops = some c2 → c2.size = 0) := by
  refine ⟨?_, ?_, ?_⟩
  · intro c now v ls hen
    simp only [get, hen, Bool.not_false, if_true]
  · intro c now v p ls hen
    simp only [set, hen, Bool.not_false, if_true]
  · intro cfg ops c2 hen h
    have : c2.store = [] := runFrom_disabled (c := State.empty α cfg) hen rfl h
    simp only [State.size, this, List.length_nil]

/-- Witness for C7: a disabled cache ignores a `set` and reports the
subsequent `get` absent, and a concrete disabled run has size 0. -/
theorem C7_disabled_cache_is_noop_witness :
    get (State.empty Nat ⟨false, 3600, 10⟩) 1 "abc" none
      = (none, State.empty Nat ⟨false, 3600, 10⟩) ∧
    set (State.empty Nat ⟨false, 3600, 10⟩) 0 "abc" 7 none
      = some (State.empty Nat ⟨false, 3600, 10⟩) ∧
    State.size (State.empty Nat ⟨false, 3600, 10⟩) = 0 :=
  ⟨C7_disabled_cache_is_noop.1 (State.empty Nat ⟨false, 3600, 10⟩) 1 "abc" none rfl,
    C7_disabled_cache_is_noop.2.1 (State.empty Nat ⟨false, 3600, 10⟩) 0 "abc" 7 none rfl,
    C7_disabled_cache_is_noop.2.2 ⟨false, 3600, 10⟩
      [Op.set 0 "abc" 7 none, Op.get 1 "abc" none] (State.empty Nat ⟨false, 3600, 10⟩)
      rfl rfl⟩

end TranscriptCache

namespace TranscriptCache

theorem length_filter_partition (p : (Key × α × Int) → Bool) (l : List (Key × α × Int)) :
    (l.filter (fun e => !p e)).length + (l.filter p).length = l.length := by
  induction l with
  | nil => rfl
  | cons e rest ih =>
    cases he : p e <;>
      simp only [List.filter_cons, he, Bool.not_false, Bool.not_true, if_true, if_false,
        Bool.false_eq_true, Bool.true_eq_false, List.length_cons] <;>
      omega

/-- C8: `cleanupExpired` is a no-op returning 0 on a disabled cache;
otherwise it keeps exactly the entries whose age does not exceed
`ttlSeconds`, returns the number of removed entries, and `size` drops by
exactly that count. -/
theorem C8_cleanupExpired_removes_exactly_expired (c : State α) (now : Int) :
    (c.cfg.enabled = false → cleanupExpired c now = (0, c)) ∧
    (c.cfg.enabled = true →
      (cleanupExpired c now).2.store
        = c.store.filter (fun e => !isExpired c.cfg now e.2.2) ∧
      (cleanupExpired c now).1
        = (c.store.filter (fun e => isExpired c.cfg now e.2.2)).length ∧
      (cleanupExpired c now).2.size + (cleanupExpired c now).1 = c.size ∧
      (∀ e ∈ c.store, isExpired c.cfg now e.2.2 = false →
        e ∈ (cleanupExpired c now).2.store)) := by
  constructor
  · intro hen
    simp only [cleanupExpired, hen, Bool.not_false, if_true]
  · intro hen
    simp only [cleanupExpired, hen, Bool.not_true, Bool.false_eq_true, if_false, State.size]
    refine ⟨trivial, trivial, ?_, ?_⟩
    · exact length_filter_partition _ _
    · intro e he hexp
      simp only [List.mem_filter, hexp, Bool.not_false, and_true]
      exact he

/-- Witness for C8: three entries inserted at instants 0, 0 and 5 with
`ttlSeconds = 1`; at instant 5 the first two are expired, the sweep
returns 2 and the size drops from 3 to 1. -/
theorem C8_cleanupExpired_removes_exactly_expired_witness :
    (cleanupExpired (⟨⟨true, 1, 10⟩,
        [(("a", ["en"]), 1, 0), (("b", ["en"]), 2, 0), (("c", ["en"]), 3, 5)]⟩ : State Nat) 5).2.size
      + (cleanupExpired (⟨⟨true, 1, 10⟩,
        [(("a", ["en"]), 1, 0), (("b", ["en"]), 2, 0), (("c", ["en"]), 3, 5)]⟩ : State Nat) 5).1
      = State.size (⟨⟨true, 1, 10⟩,
        [(("a", ["en"]), 1, 0), (("b", ["en"]), 2, 0), (("c", ["en"]), 3, 5)]⟩ : State Nat) :=
  ((C8_cleanupExpired_removes_exactly_expired (⟨⟨true, 1, 10⟩,
      [(("a", ["en"]), 1, 0), (("b", ["en"]), 2, 0), (("c", ["en"]), 3, 5)]⟩ : State Nat) 5).2
    rfl).2.2.1

/-- C9: `clear` empties the store unconditionally — regardless of
`enabled` — leaving `size = 0` and every subsequent `get` absent. -/
theorem C9_clear_removes_all_unconditionally (c : State α) (now : Int) (v : String)
    (ls : Option (List String)) :
    (clear c).store = [] ∧ State.size (clear c) = 0 ∧ (get (clear c) now v ls).1 = none := by
  refine ⟨rfl, rfl, ?_⟩
  simp only [get]
  split
  · rfl
  · split
    · rfl
    · next p ts heq => simp [clear, lookupKey] at heq

/-- C10: a non-expired hit returns the payload and re-inserts the entry
with its original `insertedAt` timestamp — promotion changes only the
recency position, never the timestamp. -/
theorem C10_hit_preserves_insertedAt (c : State α) (now : Int) (v : String)
    (ls : Option (List String)) (p : α) (ts : Int)
    (hen : c.cfg.enabled = true)
    (hl : lookupKey (makeKey v ls) c.store = some (p, ts))
    (hfresh : isExpired c.cfg now ts = false) :
    (get c now v ls).1 = some p ∧
    lookupKey (makeKey v ls) (get c now v ls).2.store = some (p, ts) := by
  simp only [get, hen, Bool.not_true, Bool.false_eq_true, if_false, hl, hfresh]
  refine ⟨trivial, ?_⟩
  rw [lookupKey_append_of_none _ (lookupKey_eraseKey _ _)]
  simp [lookupKey]

/-- Witness for C10: an entry inserted at instant 3 read at instant 50
under a TTL of 100 still carries timestamp 3 after the hit. -/
theorem C10_hit_preserves_insertedAt_witness :
    lookupKey (makeKey "abc" none)
      (get (⟨⟨true, 100, 10⟩, [(("abc", ["en"]), 5, 3)]⟩ : State Nat) 50 "abc" none).2.store
      = some (5, 3) :=
  (C10_hit_preserves_insertedAt (⟨⟨true, 100, 10⟩, [(("abc", ["en"]), 5, 3)]⟩ : State Nat)
    50 "abc" none 5 3 rfl (by decide) (by decide)).2

end TranscriptCache
